import Mathlib

/-!
Verification of the entity-tree synchronization and editing core of the
OpenT A2L Forge frontend.

The definitions below are shallow embeddings of the TypeScript code in
`src/src/App.tsx` and `src/src/components/editors/MeasurementEditor.tsx`:

* `filteredTree`   — the search/filter engine (`filteredTree` useMemo, App.tsx 277-302);
* `selectionEffect` — the selection-fallback effect (App.tsx 356-366) together
  with `treeItemKeys` (the key set of `treeItemLookup`, App.tsx 341-352);
* `addRecentFile`  — the recent-file registry update (App.tsx 324-334);
* `loadRecents`    — the recents reader with its catch-all error handling
  (App.tsx 308-318), over a small model of JavaScript JSON values;
* `handleSave`     — the editor commit transition (MeasurementEditor.tsx 75-83
  plus the `onSave` wiring in App.tsx 914-937);
* `loadMore` / `paginationResetEffect` — the per-section pagination state
  (App.tsx 368-377 and 723-750);
* `mergeSymbols`   — the backend symbol-import merge, modelled from the spec
  (the Rust backend is not part of the frontend sources);
* `handleAddSymbols` — the add-symbols handler and its status message
  (App.tsx 536-575).

Strings manipulated character-wise (queries, identifiers in the tree) are
modelled as `List Char`; JavaScript `toLowerCase`/`trim`/`includes` are
modelled on the ASCII fragment that A2L identifiers use.

The file is organised as definitions first (data model, operations, concrete
fixtures), then the theorems about them.
-/

namespace A2LForge

-- ===================== Definitions =====================

-- --- JavaScript string primitives ---

/-- JavaScript `String.prototype.toLowerCase`, on the ASCII fragment. -/
def toLowerL (s : List Char) : List Char :=
  s.map Char.toLower

/-- JavaScript `String.prototype.trim`: strip leading and trailing whitespace. -/
def trimL (s : List Char) : List Char :=
  ((s.dropWhile Char.isWhitespace).reverse.dropWhile Char.isWhitespace).reverse

/-- Does `hay` start with `needle`? -/
def startsWithL : List Char → List Char → Bool
  | _, [] => true
  | [], _ :: _ => false
  | h :: hs, n :: ns => h = n && startsWithL hs ns

/-- JavaScript `String.prototype.includes`: is `needle` a contiguous substring of `hay`? -/
def includesL : List Char → List Char → Bool
  | [], needle => needle.isEmpty
  | h :: t, needle => startsWithL (h :: t) needle || includesL t needle

-- --- Tree data model (the `type` declarations of App.tsx) ---

/-- `A2lTreeDetail` of App.tsx: one label/value pair shown inline for an item. -/
structure A2lTreeDetail where
  label : List Char
  value : List Char
  deriving DecidableEq

/-- `A2lTreeItem` of App.tsx: the tree-level projection of one entity. -/
structure A2lTreeItem where
  id : List Char
  name : List Char
  kind : List Char
  description : Option (List Char)
  details : Option (List A2lTreeDetail)
  deriving DecidableEq

/-- `A2lTreeSection` of App.tsx: a titled group of items of one entity kind. -/
structure A2lTreeSection where
  id : List Char
  title : List Char
  items : List A2lTreeItem
  deriving DecidableEq

/-- `A2lTreeModule` of App.tsx: a container ("module") holding sections. -/
structure A2lTreeModule where
  id : List Char
  name : List Char
  long_identifier : Option (List Char)
  sections : List A2lTreeSection
  deriving DecidableEq

/-- `A2lTree` of App.tsx: the whole tree projection. -/
structure A2lTree where
  modules : List A2lTreeModule
  deriving DecidableEq

-- --- Search/filter engine (App.tsx 277-302) ---

/-- The item predicate inside `filteredTree` (App.tsx 287-293), applied to the
already trimmed-and-lowercased query:
`item.name.toLowerCase().includes(query) || item.kind.toLowerCase().includes(query) ||
 (item.description ?? "").toLowerCase().includes(query)`. -/
def itemMatches (query : List Char) (item : A2lTreeItem) : Bool :=
  includesL (toLowerL item.name) query ||
  includesL (toLowerL item.kind) query ||
  includesL (toLowerL (item.description.getD [])) query

/-- The `filteredTree` useMemo of App.tsx 277-302, for a present (non-null) tree:
trim and lowercase the query; an empty query returns the input tree itself;
otherwise keep each section's matching items, drop empty sections, and drop
modules with no surviving section. -/
def filteredTree (a2lTree : A2lTree) (searchQuery : List Char) : A2lTree :=
  let query := toLowerL (trimL searchQuery)
  if query.isEmpty then a2lTree
  else
    { modules :=
        a2lTree.modules.filterMap fun module =>
          let sections :=
            module.sections.filterMap fun s =>
              let items := s.items.filter (itemMatches query)
              if items.isEmpty then none else some { s with items := items }
          if sections.isEmpty then none else some { module with sections := sections } }

/-- The filter-match relation exactly as the specification words it: the
lowercased query is a substring of the lowercased display-name, of the
lowercased kind tag, or of the lowercased description (absent description
treated as empty). Stated on the raw query, with no trimming. -/
def claimItemMatches (query : List Char) (item : A2lTreeItem) : Bool :=
  includesL (toLowerL item.name) (toLowerL query) ||
  includesL (toLowerL item.kind) (toLowerL query) ||
  includesL (toLowerL (item.description.getD [])) (toLowerL query)

/-- The filter exactly as the specification words it: a section appears iff at
least one of its items matches and keeps exactly its matching items in order;
a container appears iff at least one of its sections survives. -/
def claimFilter (a2lTree : A2lTree) (query : List Char) : A2lTree :=
  { modules :=
      a2lTree.modules.filterMap fun module =>
        let sections :=
          module.sections.filterMap fun s =>
            let items := s.items.filter (claimItemMatches query)
            if items.isEmpty then none else some { s with items := items }
        if sections.isEmpty then none else some { module with sections := sections } }

-- --- Selection fallback (App.tsx 341-352 and 356-366) ---

/-- The tree-item key used by `treeItemLookup` and the selection state:
the string `item-` followed by the item id (App.tsx 347, 365). -/
def itemKey (id : List Char) : List Char :=
  "item-".data ++ id

/-- The key set of the `treeItemLookup` map (App.tsx 341-352): one key per
item of the projection, in tree order. -/
def treeItemKeys (tree : A2lTree) : List (List Char) :=
  tree.modules.flatMap fun m => m.sections.flatMap fun s => s.items.map fun i => itemKey i.id

/-- The fallback target of the selection effect (App.tsx 364):
`a2lTree.modules[0]?.sections[0]?.items[0]`, turned into its key. -/
def firstItemKey (tree : A2lTree) : Option (List Char) :=
  match tree.modules.head? with
  | none => none
  | some m =>
    match m.sections.head? with
    | none => none
    | some s =>
      match s.items.head? with
      | none => none
      | some i => some (itemKey i.id)

/-- The selection-fallback effect (App.tsx 356-366) as a function from the
current tree (null allowed) and current selection to the next selection:
no tree clears the selection; a selection whose key still exists is kept;
otherwise the selection becomes the first item of the first section of the
first module, or nothing when that path yields no item. -/
def selectionEffect (a2lTree : Option A2lTree) (selectedTreeItemId : Option (List Char)) :
    Option (List Char) :=
  match a2lTree with
  | none => none
  | some tree =>
    match selectedTreeItemId with
    | some sid => if sid ∈ treeItemKeys tree then some sid else firstItemKey tree
    | none => firstItemKey tree

-- --- Recent-file registry (App.tsx 320-334) ---

/-- `RecentFile` of App.tsx. -/
structure RecentFile where
  name : String
  path : Option String
  lastOpened : Nat
  deriving DecidableEq

/-- `addRecentFile` of App.tsx 324-334 (its pure core, the list it both stores
and persists): drop every entry equal to the new one on the (name, path)
pair, prepend the new entry, and keep at most 8 entries. -/
def addRecentFile (current : List RecentFile) (next : RecentFile) : List RecentFile :=
  let filtered := current.filter fun entry => entry.name != next.name || entry.path != next.path
  (next :: filtered).take 8

-- --- Pagination state (App.tsx 368-377 and 723-750) ---

/-- The `sectionItemLimit` record, modelled as an association list in which
the most recent binding for a key comes first (JavaScript object update
`{...c, [section.id]: v}` makes the new binding the one that is read). -/
abbrev SectionLimits := List (List Char × Nat)

/-- `DEFAULT_SECTION_LIMIT` of App.tsx 304. -/
def DEFAULT_SECTION_LIMIT : Nat := 200

/-- The limit read for a section: `sectionItemLimit[section.id] ?? DEFAULT_SECTION_LIMIT`
(App.tsx 724). -/
def getSectionLimit (limits : SectionLimits) (sectionId : List Char) : Nat :=
  ((limits.find? fun p => p.1 = sectionId).map Prod.snd).getD DEFAULT_SECTION_LIMIT

/-- One "Load more" click (App.tsx 745):
`{...c, [section.id]: (c[section.id] ?? DEFAULT_SECTION_LIMIT) + 200}`. -/
def loadMore (limits : SectionLimits) (sectionId : List Char) : SectionLimits :=
  (sectionId, getSectionLimit limits sectionId + 200) :: limits

/-- A sequence of "Load more" clicks, applied in order. -/
def applyLoadMores (limits : SectionLimits) (clicks : List (List Char)) : SectionLimits :=
  clicks.foldl loadMore limits

/-- The pagination-reset effect (App.tsx 368-377): whenever the projection is
replaced (and also when it is cleared) the limit record is reset to `{}`. -/
def paginationResetEffect (a2lTree : Option A2lTree) : SectionLimits :=
  match a2lTree with
  | none => []
  | some _ => []

-- --- Recents reader over a JavaScript JSON-value model (App.tsx 308-318) ---

/-- A JavaScript value as produced by `JSON.parse`. -/
inductive JsonValue where
  | null : JsonValue
  | bool (b : Bool) : JsonValue
  | num (n : Int) : JsonValue
  | str (s : String) : JsonValue
  | arr (elems : List JsonValue) : JsonValue
  | obj (fields : List (String × JsonValue)) : JsonValue

/-- JavaScript truthiness of a value (`!!v`). -/
def jsTruthy : JsonValue → Bool
  | .null => false
  | .bool b => b
  | .num n => n != 0
  | .str s => !s.isEmpty
  | .arr _ => true
  | .obj _ => true

/-- JavaScript property read `v.path`: a `TypeError` on `null`, the field (or
`undefined`, modelled as `none`) on an object, `undefined` on any other value. -/
def jsGetPath : JsonValue → Except Unit (Option JsonValue)
  | .null => .error ()
  | .obj fields => .ok ((fields.find? fun p => p.1 == "path").map Prod.snd)
  | _ => .ok none

/-- `parsed.filter(f => !!f.path)` over the parsed array: keeps the elements
whose `path` property is truthy, propagating the `TypeError` raised when an
element is `null`. -/
def filterByTruthyPath : List JsonValue → Except Unit (List JsonValue)
  | [] => .ok []
  | v :: rest =>
    match jsGetPath v with
    | .error e => .error e
    | .ok p =>
      match filterByTruthyPath rest with
      | .error e => .error e
      | .ok tail => if (p.map jsTruthy).getD false then .ok (v :: tail) else .ok tail

/-- Is the value a JavaScript array (`Array.isArray`)? -/
def jsonIsArr : JsonValue → Bool
  | .arr _ => true
  | _ => false

/-- `loadRecents` of App.tsx 308-318. The storage slot is modelled as
`Option (Option JsonValue)`: `none` when `getItem` yields no usable string
(the `!raw` early return), `some none` when `JSON.parse` throws (caught:
empty list), `some (some v)` when parsing yields `v`. A non-array parse
result yields the empty list, and a `TypeError` raised while filtering the
array elements is caught and also yields the empty list. -/
def loadRecents (slot : Option (Option JsonValue)) : List JsonValue :=
  match slot with
  | none => []
  | some none => []
  | some (some v) =>
    match v with
    | .arr elems =>
      match filterByTruthyPath elems with
      | .ok kept => kept
      | .error _ => []
    | _ => []

-- --- Editor session commit (MeasurementEditor.tsx 75-83, App.tsx 914-937) ---

/-- `MeasurementData` of MeasurementEditor.tsx (numeric fields modelled
as integers; none of the commit logic inspects them). -/
structure MeasurementData where
  name : String
  long_identifier : String
  datatype : String
  conversion : String
  resolution : Int
  accuracy : Int
  lower_limit : Int
  upper_limit : Int
  ecu_address : Option String
  deriving DecidableEq

/-- The state touched by a commit: the editor's edit buffer (`data`) and
inline error, together with the App-side `isEditing` flag and a counter of
triggered projection refreshes (`refreshTree` calls). -/
structure EditorSessionState where
  isEditing : Bool
  data : Option MeasurementData
  error : Option String
  refreshCount : Nat
  deriving DecidableEq

/-- `handleSave` of MeasurementEditor.tsx 75-83 with the `onSave` wiring of
App.tsx 914-937: no buffer means no action; a successful
`update_measurement` runs `onSave` (leave editing, refresh projection); a
failure only attaches the stringified error, leaving everything else as it
was. -/
def handleSave (s : EditorSessionState) (updateResult : Except String Unit) :
    EditorSessionState :=
  match s.data with
  | none => s
  | some _ =>
    match updateResult with
    | .ok _ => { s with isEditing := false, refreshCount := s.refreshCount + 1 }
    | .error err => { s with error := some err }

-- --- Symbol import merge (backend `create_measurements_from_elf`) ---

/-- `ElfSymbol` of App.tsx (the spec's ImportSymbol). The source field name
`section` is a Lean keyword and is rendered here as `sectionName`. -/
structure ElfSymbol where
  name : String
  address : Nat
  size : Nat
  bind : String
  type_str : String
  sectionName : String
  deriving DecidableEq

/-- A measurement entity as held by the canonical store (the fields the merge
writes; cf. the mock store of tests/e2e/elf-integration.spec.ts). -/
structure Measurement where
  name : String
  long_identifier : String
  datatype : String
  conversion : String
  lower_limit : Int
  upper_limit : Int
  ecu_address : Option String
  deriving DecidableEq

/-- Modelled from the spec: the entity created for one symbol by the backend
merge (`create_measurements_from_elf`, whose Rust implementation is not among
the frontend sources). Deterministic defaults: storage type falls back to the
one observed default `UBYTE`; the numeric range is the full range of that
type (0 .. 255); the conversion reference is the identity; the address is the
symbol's address as an upper-case hexadecimal string with the `0x` prefix. -/
def measurementFromSymbol (sym : ElfSymbol) : Measurement :=
  { name := sym.name
  , long_identifier := ""
  , datatype := "UBYTE"
  , conversion := "NO_COMPENSATION"
  , lower_limit := 0
  , upper_limit := 255
  , ecu_address := some ("0x" ++ ((Nat.toDigits 16 sym.address).map Char.toUpper).asString) }

/-- Modelled from the spec: the backend merge (`merge-symbols` /
`create_measurements_from_elf`, Rust implementation not among the frontend
sources). For each input symbol in order: if a measurement with that name
already exists in the target container it is skipped (no overwrite — the
store never holds two entities of one kind with the same name), otherwise a
new measurement with deterministic defaults is appended. Returns the updated
store and the count actually created. -/
def mergeSymbols : List Measurement → List ElfSymbol → List Measurement × Nat
  | store, [] => (store, 0)
  | store, sym :: rest =>
    if store.any (fun m => m.name == sym.name) then
      mergeSymbols store rest
    else
      let next := mergeSymbols (store ++ [measurementFromSymbol sym]) rest
      (next.1, next.2 + 1)

-- --- Add-symbols handler and its status message (App.tsx 536-575) ---

/-- `A2lMetadata` of App.tsx. -/
structure A2lMetadata where
  project_name : String
  project_long_identifier : String
  module_names : List String
  header_comment : Option String
  asap2_version : Option String
  warning_count : Nat
  deriving DecidableEq

/-- `CoreEntity` of App.tsx. -/
structure CoreEntity where
  kind : String
  name : String
  long_identifier : Option String
  deriving DecidableEq

/-- `EntityUpdateResult` of App.tsx 552-555: what `create_measurements_from_elf`
returns. It carries no created count. -/
structure EntityUpdateResult where
  metadata : A2lMetadata
  entities : List CoreEntity
  deriving DecidableEq

/-- `StatusType` of App.tsx. -/
inductive StatusType where
  | info : StatusType
  | success : StatusType
  | error : StatusType
  deriving DecidableEq

/-- `StatusState` of App.tsx. -/
structure StatusState where
  type : StatusType
  message : String
  deriving DecidableEq

/-- `handleAddSymbols` of App.tsx 536-575, reduced to the status it pushes:
no selection means no action; no loaded metadata is an error; otherwise the
selected symbols are submitted to the backend merge and, on success, the
pushed message reports the number of symbols submitted (`toAdd.length`) —
the merge outcome `r` is not consulted for the count. -/
def handleAddSymbols (elfSymbols : List ElfSymbol) (selectedElfSymbols : List String)
    (metadata : Option A2lMetadata) (mergeResult : Except String EntityUpdateResult) :
    Option StatusState :=
  if selectedElfSymbols.isEmpty then none
  else
    match metadata with
    | none => some { type := .error, message := "No A2L project loaded to add to." }
    | some _ =>
      let toAdd := elfSymbols.filter fun s => selectedElfSymbols.contains s.name
      match mergeResult with
      | .ok _ =>
          some { type := .success
               , message := "Added " ++ toString toAdd.length ++ " measurements." }
      | .error e => some { type := .error, message := "Failed to add symbols: " ++ e }

-- --- Concrete fixtures for counterexamples and witnesses ---

/-- A single measurement item named "abc" with no description. -/
def itemAbc : A2lTreeItem :=
  { id := "i1".data, name := "abc".data, kind := "Measurement".data
  , description := none, details := none }

/-- A one-module, one-section, one-item tree projection. -/
def treeAbc : A2lTree :=
  { modules := [{ id := "m1".data, name := "demo_module".data, long_identifier := none
                , sections := [{ id := "s1".data, title := "Measurements".data
                               , items := [itemAbc] }] }] }

/-- A tree whose first module has no sections while its second module holds
an item: the fallback path `modules[0]?.sections[0]?.items[0]` finds nothing. -/
def treeFirstEmpty : A2lTree :=
  { modules :=
      [ { id := "m0".data, name := "empty_module".data, long_identifier := none
        , sections := [] }
      , { id := "m1".data, name := "demo_module".data, long_identifier := none
        , sections := [{ id := "s1".data, title := "Measurements".data
                       , items := [itemAbc] }] } ] }

/-- An ELF symbol named after a duplicated global variable. -/
def dupSymbol : ElfSymbol :=
  { name := "Dup_Var", address := 4096, size := 4, bind := "GLOBAL"
  , type_str := "OBJECT", sectionName := ".data" }

/-- The store of the ELF integration fixture: one existing measurement. -/
def demoStore : List Measurement :=
  [{ name := "ExistingMeasurement", long_identifier := "Always here", datatype := "UBYTE"
   , conversion := "NO_COMPENSATION", lower_limit := 0, upper_limit := 100
   , ecu_address := none }]

/-- The demo batch: `New_Variable_A` is new, `ExistingMeasurement` is not. -/
def demoSymbols : List ElfSymbol :=
  [ { name := "New_Variable_A", address := 4096, size := 4, bind := "GLOBAL"
    , type_str := "OBJECT", sectionName := ".data" }
  , { name := "ExistingMeasurement", address := 8192, size := 2, bind := "LOCAL"
    , type_str := "OBJECT", sectionName := ".bss" } ]

-- ===================== Theorems =====================

-- --- Search/filter engine ---

/-- Helper: `toLowerL` of a list is empty iff the list is. -/
theorem toLowerL_isEmpty (s : List Char) : (toLowerL s).isEmpty = s.isEmpty := by
  cases s <;> rfl

/-- C2 (counterexample): with the raw query `" "` (a single space) the code
trims the query and returns the tree unchanged, while the claim's match
relation — which uses the untrimmed query — matches no item and therefore
demands an empty result. -/
theorem filteredTree_ne_claimFilter_on_space :
    filteredTree treeAbc " ".data ≠ claimFilter treeAbc " ".data := by
  decide

/-- C2 (amended): for a query whose trimmed form is non-empty, the filter
engine coincides with the specification's filter applied to the trimmed
query: an item matches iff the lowercased trimmed query is a substring of
its lowercased name, kind tag, or description (absent treated as empty); a
section survives iff at least one item matches and keeps exactly its
matching items in order; a container survives iff a section survives. -/
theorem filteredTree_eq_claimFilter_of_trim_ne_nil (tree : A2lTree) (q : List Char)
    (h : trimL q ≠ []) : filteredTree tree q = claimFilter tree (trimL q) := by
  have hempty : (toLowerL (trimL q)).isEmpty = false := by
    rw [toLowerL_isEmpty]
    cases hq : trimL q with
    | nil => exact absurd hq h
    | cons c cs => rfl
  unfold filteredTree claimFilter claimItemMatches itemMatches
  simp only [hempty, Bool.false_eq_true, if_false]

/-- Witness for the amended C2 at a concrete input: the query "aBc " (mixed
case, trailing space) against the one-item tree. -/
theorem filteredTree_eq_claimFilter_witness :
    filteredTree treeAbc "aBc ".data = claimFilter treeAbc (trimL "aBc ".data) :=
  filteredTree_eq_claimFilter_of_trim_ne_nil treeAbc "aBc ".data (by decide)

/-- C3 (counterexample): the query `" "` is a non-empty string that matches no
item of `treeAbc` (under the claimed match relation), yet the filter returns
one container, not zero. -/
theorem filteredTree_space_query_keeps_container :
    " ".data ≠ ([] : List Char)
      ∧ claimItemMatches " ".data itemAbc = false
      ∧ (filteredTree treeAbc " ".data).modules ≠ [] := by
  refine ⟨by decide, by decide, by decide⟩

/-- C3 (amended): for every query whose trimmed form is non-empty, if no item
anywhere in the projection matches the trimmed-and-lowercased query, the
filter returns zero containers. -/
theorem filteredTree_no_match_empty (tree : A2lTree) (q : List Char)
    (hq : trimL q ≠ [])
    (hnone : ∀ m ∈ tree.modules, ∀ s ∈ m.sections, ∀ i ∈ s.items,
      itemMatches (toLowerL (trimL q)) i = false) :
    (filteredTree tree q).modules = [] := by
  have hempty : (toLowerL (trimL q)).isEmpty = false := by
    rw [toLowerL_isEmpty]
    cases hqq : trimL q with
    | nil => exact absurd hqq hq
    | cons c cs => rfl
  unfold filteredTree
  simp only [hempty, Bool.false_eq_true, if_false]
  rw [List.filterMap_eq_nil_iff]
  intro m hm
  simp
  exact hnone m hm

/-- Witness for the amended C3 at a concrete input: the query "zzz" matches
nothing in the one-item tree, so filtering leaves zero containers. -/
theorem filteredTree_no_match_empty_witness :
    (filteredTree treeAbc "zzz".data).modules = [] :=
  filteredTree_no_match_empty treeAbc "zzz".data (by decide) (by decide)

/-- C4: filtering with the empty query returns the input projection itself
(the code takes the early-return branch and hands back the same tree). -/
theorem filteredTree_empty_query (tree : A2lTree) : filteredTree tree [] = tree :=
  rfl

-- --- Selection fallback ---

/-- Helper: the fallback key, when it exists, is a key of the projection. -/
theorem firstItemKey_mem :
    ∀ (tree : A2lTree) (k : List Char), firstItemKey tree = some k → k ∈ treeItemKeys tree := by
  rintro ⟨mods⟩ k h
  cases mods with
  | nil => simp [firstItemKey] at h
  | cons m ms =>
    cases hs : m.sections with
    | nil => simp [firstItemKey, hs] at h
    | cons s ss =>
      cases hi : s.items with
      | nil => simp [firstItemKey, hs, hi] at h
      | cons i is =>
        simp only [firstItemKey, List.head?_cons, hs, hi, Option.some.injEq] at h
        subst h
        simp [treeItemKeys, hs, hi]

/-- C5 (counterexample): a refresh that leaves the dataset non-empty but whose
first module has no sections makes a stale selection fall back to "nothing
selected", although items exist — the claim allows "nothing selected" only
for an empty dataset. -/
theorem selection_none_on_nonempty_dataset :
    selectionEffect (some treeFirstEmpty) (some "item-gone".data) = none
      ∧ treeItemKeys treeFirstEmpty ≠ [] := by
  exact ⟨by decide, by decide⟩

/-- C5 (amended): a selection that still names an item of the projection is
kept; otherwise the selection becomes the first item of the first section of
the first container when that path yields an item, and "nothing selected"
otherwise (in particular when the dataset is empty); a non-empty result always
names an item of the projection (never a dangling id); with no projection the
selection is cleared. -/
theorem selection_fallback (tree : A2lTree) (sel : Option (List Char)) :
    (∀ sid, sel = some sid → sid ∈ treeItemKeys tree →
        selectionEffect (some tree) sel = some sid)
    ∧ (∀ sid, sel = some sid → sid ∉ treeItemKeys tree →
        selectionEffect (some tree) sel = firstItemKey tree)
    ∧ (sel = none → selectionEffect (some tree) sel = firstItemKey tree)
    ∧ (∀ k, selectionEffect (some tree) sel = some k → k ∈ treeItemKeys tree)
    ∧ selectionEffect none sel = none := by
  refine ⟨?_, ?_, ?_, ?_, rfl⟩
  · rintro sid rfl hmem
    simp [selectionEffect, hmem]
  · rintro sid rfl hmem
    simp [selectionEffect, hmem]
  · rintro rfl
    rfl
  · intro k hk
    cases sel with
    | none => exact firstItemKey_mem tree k hk
    | some sid =>
      by_cases hmem : sid ∈ treeItemKeys tree
      · simp only [selectionEffect, hmem, if_pos, Option.some.injEq] at hk
        subst hk
        exact hmem
      · simp only [selectionEffect, hmem, if_neg, ite_false] at hk
        exact firstItemKey_mem tree k hk

/-- Witness for the amended C5: the still-valid key of the one-item tree is
kept unchanged. -/
theorem selection_fallback_witness :
    selectionEffect (some treeAbc) (some "item-i1".data) = some "item-i1".data :=
  (selection_fallback treeAbc (some "item-i1".data)).1 "item-i1".data rfl (by decide)

-- --- Recent-file registry ---

/-- C6: recording an entry removes every existing entry with the same
(name, path) pair, puts the new entry first, keeps at most 8 entries, leaves
exactly one entry for the new pair, and every surviving entry is either the
new one or an old one with a different pair. -/
theorem addRecentFile_spec (current : List RecentFile) (next : RecentFile) :
    (addRecentFile current next).head? = some next
    ∧ (addRecentFile current next).length ≤ 8
    ∧ (addRecentFile current next).countP
        (fun e => e.name == next.name && e.path == next.path) = 1
    ∧ ∀ e ∈ addRecentFile current next,
        e = next ∨ (e ∈ current ∧ (e.name ≠ next.name ∨ e.path ≠ next.path)) := by
  have hfiltered : ∀ a ∈ current.filter
      (fun entry => entry.name != next.name || entry.path != next.path),
      (a.name == next.name && a.path == next.path) = false := by
    intro a ha
    have hpred := (List.mem_filter.mp ha).2
    simp only [bne_iff_ne, Bool.or_eq_true, ne_eq] at hpred
    rcases hpred with h | h
    · simp [beq_eq_false_iff_ne.mpr h]
    · simp [beq_eq_false_iff_ne.mpr h]
  refine ⟨?_, ?_, ?_, ?_⟩
  · simp [addRecentFile, List.take_succ_cons]
  · exact List.length_take_le _ _
  · unfold addRecentFile
    rw [List.take_succ_cons, List.countP_cons_of_pos _ _ (by simp)]
    have hzero : ((current.filter
        (fun entry => entry.name != next.name || entry.path != next.path)).take 7).countP
        (fun e => e.name == next.name && e.path == next.path) = 0 := by
      rw [List.countP_eq_zero]
      intro a ha
      simp [hfiltered a (List.take_subset _ _ ha)]
    rw [hzero]
  · intro e he
    have he' := List.take_subset _ _ he
    rcases List.mem_cons.mp he' with rfl | hmem
    · exact Or.inl rfl
    · right
      refine ⟨(List.mem_filter.mp hmem).1, ?_⟩
      have hpred := (List.mem_filter.mp hmem).2
      simpa only [bne_iff_ne, Bool.or_eq_true, ne_eq] using hpred

/-- Witness for C6 at concrete inputs: re-recording an already present entry
leaves it first and exactly once. -/
theorem addRecentFile_spec_witness :
    (addRecentFile
        [⟨"a.a2l", some "/tmp/a.a2l", 5⟩, ⟨"b.a2l", some "/tmp/b.a2l", 4⟩]
        ⟨"a.a2l", some "/tmp/a.a2l", 9⟩).head? = some ⟨"a.a2l", some "/tmp/a.a2l", 9⟩
    ∧ (addRecentFile
        [⟨"a.a2l", some "/tmp/a.a2l", 5⟩, ⟨"b.a2l", some "/tmp/b.a2l", 4⟩]
        ⟨"a.a2l", some "/tmp/a.a2l", 9⟩).countP
        (fun e => e.name == "a.a2l" && e.path == some "/tmp/a.a2l") = 1 :=
  ⟨(addRecentFile_spec _ _).1, (addRecentFile_spec _ _).2.2.1⟩

-- --- Pagination state ---

/-- Helper: a "Load more" click on a section raises that section's limit by
exactly 200. -/
theorem getSectionLimit_loadMore_self (limits : SectionLimits) (sid : List Char) :
    getSectionLimit (loadMore limits sid) sid = getSectionLimit limits sid + 200 := by
  unfold loadMore getSectionLimit
  rw [List.find?_cons_of_pos _ (by simp)]
  rfl

/-- Helper: a "Load more" click never lowers any section's limit. -/
theorem getSectionLimit_loadMore_le (limits : SectionLimits) (sid tsid : List Char) :
    getSectionLimit limits sid ≤ getSectionLimit (loadMore limits tsid) sid := by
  by_cases h : tsid = sid
  · subst h
    rw [getSectionLimit_loadMore_self]
    omega
  · have heq : getSectionLimit (loadMore limits tsid) sid = getSectionLimit limits sid := by
      unfold loadMore getSectionLimit
      rw [List.find?_cons_of_neg _ (by simp [h])]
    omega

/-- Helper: limits are monotone under any sequence of "Load more" clicks. -/
theorem getSectionLimit_monotone (clicks : List (List Char)) :
    ∀ (limits : SectionLimits) (sid : List Char),
      getSectionLimit limits sid ≤ getSectionLimit (applyLoadMores limits clicks) sid := by
  induction clicks with
  | nil => intro limits sid; exact le_refl _
  | cons c rest ih =>
    intro limits sid
    calc getSectionLimit limits sid
        ≤ getSectionLimit (loadMore limits c) sid := getSectionLimit_loadMore_le limits sid c
      _ ≤ getSectionLimit (applyLoadMores (loadMore limits c) rest) sid := ih _ sid
      _ = getSectionLimit (applyLoadMores limits (c :: rest)) sid := rfl

/-- C9: within a single projection lifetime the per-section limit (default
200) never decreases under any sequence of "Load more" clicks; each click on
a section adds exactly 200 to it; and replacing (or clearing) the projection
resets every section's limit to the default window. -/
theorem pagination_limits_spec (limits : SectionLimits) (clicks : List (List Char))
    (sid : List Char) :
    getSectionLimit limits sid ≤ getSectionLimit (applyLoadMores limits clicks) sid
    ∧ getSectionLimit (loadMore limits sid) sid = getSectionLimit limits sid + 200
    ∧ ∀ t : Option A2lTree,
        getSectionLimit (paginationResetEffect t) sid = DEFAULT_SECTION_LIMIT :=
  ⟨getSectionLimit_monotone clicks limits sid, getSectionLimit_loadMore_self limits sid,
    fun t => by cases t <;> rfl⟩

-- --- Recents reader ---

/-- C7: reading the recents list is total — for every storage content the
reader returns a list rather than propagating an error — and it returns the
empty list when the slot is absent, when the stored text is not valid JSON,
when the parsed value is not an array, and when processing the array's
elements raises (an array holding `null`). -/
theorem loadRecents_malformed_empty :
    loadRecents none = []
    ∧ loadRecents (some none) = []
    ∧ (∀ v, jsonIsArr v = false → loadRecents (some (some v)) = [])
    ∧ (∀ elems, filterByTruthyPath elems = .error () →
        loadRecents (some (some (.arr elems))) = []) := by
  refine ⟨rfl, rfl, ?_, ?_⟩
  · intro v hv
    cases v <;> first | rfl | exact absurd hv (by simp [jsonIsArr])
  · intro elems helems
    simp [loadRecents, helems]

/-- Witness for C7 at concrete inputs: a stored number and a stored array
containing `null` (whose `path` read throws) both read back as the empty
list. -/
theorem loadRecents_malformed_empty_witness :
    loadRecents (some (some (.num 3))) = []
    ∧ loadRecents (some (some (.arr [.null]))) = [] :=
  ⟨loadRecents_malformed_empty.2.2.1 (.num 3) rfl,
    loadRecents_malformed_empty.2.2.2 [.null] rfl⟩

-- --- Editor session commit ---

/-- C8: committing an edit is a two-outcome transition: when the update
command succeeds the session leaves the editing state and a projection
refresh is triggered; when it fails the session stays in the editing state
with the error attached and the edit buffer unchanged. -/
theorem handleSave_two_outcomes (s : EditorSessionState) (d : MeasurementData)
    (hdata : s.data = some d) (hediting : s.isEditing = true) :
    ((handleSave s (.ok ())).isEditing = false
      ∧ (handleSave s (.ok ())).refreshCount = s.refreshCount + 1)
    ∧ ∀ e, (handleSave s (.error e)).isEditing = true
        ∧ (handleSave s (.error e)).error = some e
        ∧ (handleSave s (.error e)).data = some d := by
  refine ⟨⟨?_, ?_⟩, fun e => ⟨?_, ?_, ?_⟩⟩ <;>
    simp [handleSave, hdata, hediting]

/-- Witness for C8 at a concrete editing session. -/
theorem handleSave_two_outcomes_witness :
    (handleSave ⟨true, some ⟨"EngineSpeed", "", "UWORD", "Ident", 1, 0, 0, 8000, none⟩,
        none, 0⟩ (.ok ())).isEditing = false
    ∧ (handleSave ⟨true, some ⟨"EngineSpeed", "", "UWORD", "Ident", 1, 0, 0, 8000, none⟩,
        none, 0⟩ (.error "ValidationError")).error = some "ValidationError" :=
  ⟨(handleSave_two_outcomes _ _ rfl rfl).1.1,
    ((handleSave_two_outcomes _ ⟨"EngineSpeed", "", "UWORD", "Ident", 1, 0, 0, 8000, none⟩
      rfl rfl).2 "ValidationError").2.1⟩

-- --- Symbol import merge ---

/-- Helper: the merge never touches the measurements already in the store —
they remain, unchanged, at the front of the resulting store. -/
theorem mergeSymbols_keeps_store (symbols : List ElfSymbol) :
    ∀ store : List Measurement,
      (mergeSymbols store symbols).1.take store.length = store := by
  induction symbols with
  | nil => intro store; simp [mergeSymbols]
  | cons sym rest ih =>
    intro store
    by_cases h : store.any (fun m => m.name == sym.name)
    · simp only [mergeSymbols, h, if_true]
      exact ih store
    · simp only [mergeSymbols, h, Bool.false_eq_true, if_false]
      have hlonger := ih (store ++ [measurementFromSymbol sym])
      rw [List.length_append, List.length_singleton] at hlonger
      calc (mergeSymbols (store ++ [measurementFromSymbol sym]) rest).1.take store.length
          = ((mergeSymbols (store ++ [measurementFromSymbol sym]) rest).1.take
              (store.length + 1)).take store.length := by
            rw [List.take_take]
            congr 1
            omega
        _ = (store ++ [measurementFromSymbol sym]).take store.length := by rw [hlonger]
        _ = store := by
            rw [List.take_append_of_le_length (le_refl _), List.take_length]

/-- Helper: the matches and the non-matches of a predicate partition a list. -/
theorem countP_add_countP_not {α : Type} (l : List α) (p : α → Bool) :
    l.countP p + l.countP (fun a => !(p a)) = l.length := by
  induction l with
  | nil => rfl
  | cons a t ih =>
    rw [List.countP_cons, List.countP_cons, List.length_cons]
    cases h : p a <;> simp [h] <;> omega

/-- Helper: `countP` only depends on the predicate's values on the list. -/
theorem countP_congr_eq {α : Type} {l : List α} {p q : α → Bool}
    (h : ∀ a ∈ l, p a = q a) : l.countP p = l.countP q := by
  induction l with
  | nil => rfl
  | cons a t ih =>
    rw [List.countP_cons, List.countP_cons, h a (List.mem_cons_self a t),
      ih fun x hx => h x (List.mem_cons_of_mem a hx)]

/-- Helper: when the batch's symbol names are pairwise distinct, the merge
creates exactly one measurement per symbol whose name is not already in the
store. -/
theorem mergeSymbols_count (symbols : List ElfSymbol) :
    ∀ store : List Measurement, (symbols.map fun s => s.name).Nodup →
      (mergeSymbols store symbols).2
        = symbols.countP fun s => !(store.any fun m => m.name == s.name) := by
  induction symbols with
  | nil => intro store _; simp [mergeSymbols]
  | cons sym rest ih =>
    intro store hnodup
    rw [List.map_cons, List.nodup_cons] at hnodup
    obtain ⟨hhead, hnodup'⟩ := hnodup
    by_cases h : store.any (fun m => m.name == sym.name)
    · simp only [mergeSymbols, h, if_true, List.countP_cons, h, Bool.not_true,
        Bool.false_eq_true, if_false, Nat.add_zero]
      exact ih store hnodup'
    · have hcongr : ∀ s ∈ rest,
          (!((store ++ [measurementFromSymbol sym]).any fun m => m.name == s.name))
            = (!(store.any fun m => m.name == s.name)) := by
        intro s hs
        have hne : sym.name ≠ s.name := by
          intro hcontr
          exact hhead (hcontr ▸ List.mem_map_of_mem (fun s => s.name) hs)
        simp [List.any_append, measurementFromSymbol, beq_eq_false_iff_ne.mpr hne]
      have hfalse : store.any (fun m => m.name == sym.name) = false := by
        simpa using h
      simp only [mergeSymbols, hfalse, Bool.false_eq_true, if_false, List.countP_cons,
        Bool.not_false, if_true]
      rw [ih (store ++ [measurementFromSymbol sym]) hnodup', countP_congr_eq hcongr]

/-- C1 (counterexample): a batch holding the same symbol twice against an
empty store has N = 2 symbols of which M = 0 names pre-exist, yet only one
measurement is created (the second occurrence is skipped against the just-
created entity, as the no-duplicate invariant requires), so the created
count is not N − M. -/
theorem mergeSymbols_dup_batch_counterexample :
    (mergeSymbols [] [dupSymbol, dupSymbol]).2
      ≠ [dupSymbol, dupSymbol].length
        - [dupSymbol, dupSymbol].countP
            (fun s => ([] : List Measurement).any fun m => m.name == s.name) := by
  decide

/-- C1 (amended): for every batch of N symbols with pairwise-distinct names
submitted against a store in which M of those names already exist, the merge
creates exactly N − M measurements — one per symbol whose name did not
already exist — and every measurement that existed before is left unchanged,
at its old position at the front of the store. -/
theorem mergeSymbols_spec (store : List Measurement) (symbols : List ElfSymbol)
    (hnodup : (symbols.map fun s => s.name).Nodup) :
    (mergeSymbols store symbols).2
      = symbols.length - symbols.countP (fun s => store.any fun m => m.name == s.name)
    ∧ (mergeSymbols store symbols).1.take store.length = store := by
  refine ⟨?_, mergeSymbols_keeps_store symbols store⟩
  rw [mergeSymbols_count symbols store hnodup]
  have hsum : symbols.countP (fun s => store.any fun m => m.name == s.name)
      + symbols.countP (fun s => !(store.any fun m => m.name == s.name))
      = symbols.length :=
    countP_add_countP_not symbols _
  omega

/-- Witness for the amended C1: the fixture batch (N = 2, M = 1) creates
exactly one measurement and keeps the existing one unchanged. -/
theorem mergeSymbols_spec_witness :
    (mergeSymbols demoStore demoSymbols).2
      = demoSymbols.length
        - demoSymbols.countP (fun s => demoStore.any fun m => m.name == s.name)
    ∧ (mergeSymbols demoStore demoSymbols).1.take demoStore.length = demoStore :=
  mergeSymbols_spec demoStore demoSymbols (by decide)

-- --- Add-symbols status message ---

/-- C10: after a successful add-symbols invocation the success message always
reports the number of symbols submitted (the selected ones present in the
symbol table), whatever the merge result `r` contains — symbols the merge
skipped as duplicates are still counted. -/
theorem handleAddSymbols_reports_submitted_count (elfSymbols : List ElfSymbol)
    (selected : List String) (md : A2lMetadata) (r : EntityUpdateResult)
    (hsel : selected ≠ []) :
    handleAddSymbols elfSymbols selected (some md) (.ok r)
      = some { type := .success
             , message := "Added "
                 ++ toString (elfSymbols.filter fun s => selected.contains s.name).length
                 ++ " measurements." } := by
  have hne : selected.isEmpty = false := by
    cases selected with
    | nil => exact absurd rfl hsel
    | cons a l => rfl
  simp [handleAddSymbols, hne]

/-- Witness for C10: both fixture symbols are selected and submitted against
a store that already holds one of them; the message still reports 2. -/
theorem handleAddSymbols_reports_submitted_count_witness :
    handleAddSymbols demoSymbols ["New_Variable_A", "ExistingMeasurement"]
        (some { project_name := "elf_integration_proj"
              , project_long_identifier := "Integration Test Project"
              , module_names := ["TargetModule"], header_comment := none
              , asap2_version := none, warning_count := 0 })
        (.ok { metadata := { project_name := "elf_integration_proj"
                           , project_long_identifier := "Integration Test Project"
                           , module_names := ["TargetModule"], header_comment := none
                           , asap2_version := none, warning_count := 0 }
             , entities := [] })
      = some { type := .success, message := "Added 2 measurements." } := by
  rw [handleAddSymbols_reports_submitted_count _ _ _ _ (by decide)]
  decide

end A2LForge
